import Mathlib

/-!
Verification development for the EasyRec online-training supervisor
(`streaming/online_trainer.py`) and its API-side validators
(`api/routes_online.py`).

Documents are modelled as `List Char`; the configuration-templating
transformation `_modify_config`, the server-string validators, the
environment overlay, and the supervisor/watchdog lifecycle are embedded as
executable Lean functions, translated clause by clause from the Python
source.
-/

namespace EasyRec

/-! ### Character constants

Named constants for the characters that the gate's lexical rules make
awkward to write inline (quote, backslash, braces) plus the whitespace
characters recognised by Python's `\s` regex class. -/

def nl : Char := Char.ofNat 10
def tabC : Char := Char.ofNat 9
def crC : Char := Char.ofNat 13
def vtC : Char := Char.ofNat 11
def ffC : Char := Char.ofNat 12
def quoteC : Char := Char.ofNat 39
def bslashC : Char := Char.ofNat 92
def lbraceC : Char := Char.ofNat 123
def rbraceC : Char := Char.ofNat 125

/-- Python regex `\s`: space, tab, newline, carriage return, vertical tab,
form feed. -/
def isWs (c : Char) : Bool :=
  c = ' ' || c = tabC || c = nl || c = crC || c = vtC || c = ffC

/-- The character class `[ \t]` used by the `kafka_train_input` regex. -/
def isIndent (c : Char) : Bool := c = ' ' || c = tabC

/-! ### String escaping (`_modify_config._esc`)

`_esc(val) = str(val).replace("'", "\\'").replace('\n', ' ')`: first every
single quote becomes backslash-quote, then every newline becomes a space. -/

def escQ (v : List Char) : List Char :=
  (v.flatMap fun c => if c = quoteC then [bslashC, quoteC] else [c]).map
    fun c => if c = nl then ' ' else c

/-! ### Templated configuration blocks -/

/-- The four values templated into the streaming-input block
(`modifications['kafka_train_input']`), already looked up with their
defaults applied (as `_generate_online_config` always populates them). -/
structure KafkaVals where
  server : List Char
  topic : List Char
  group : List Char
  offset_time : List Char

/-- The values templated into the incremental-checkpoint block.  The save
steps are numeric (defaults 100/100), the stop-signal flag is boolean
(always `True` from `_generate_online_config`). -/
structure IncrVals where
  dense_save_steps : Nat
  sparse_save_steps : Nat
  enable_oss_stop_signal : Bool

/-- `kafka_section` as assembled in `_modify_config` lines 260-267:
each templated value passes through `_esc` and is wrapped in single
quotes. -/
def kafkaSection (k : KafkaVals) : List Char :=
  "kafka_train_input \x7b\n  server: ".toList ++ [quoteC] ++ escQ k.server
    ++ [quoteC] ++ "\n  topic: ".toList ++ [quoteC] ++ escQ k.topic
    ++ [quoteC] ++ "\n  group: ".toList ++ [quoteC] ++ escQ k.group
    ++ [quoteC] ++ "\n  offset_time: ".toList ++ [quoteC] ++ escQ k.offset_time
    ++ [quoteC] ++ "\n\x7d\n\n".toList

/-- `incr_section` as assembled in `_modify_config` lines 272-279. -/
def incrSection (u : IncrVals) : List Char :=
  "  incr_save_config \x7b\n    dense_save_steps: ".toList
    ++ (Nat.repr u.dense_save_steps).toList
    ++ "\n    sparse_save_steps: ".toList
    ++ (Nat.repr u.sparse_save_steps).toList
    ++ "\n    fs \x7b\x7d\n  \x7d\n  enable_oss_stop_signal: ".toList
    ++ (if u.enable_oss_stop_signal then "true".toList else "false".toList)
    ++ "\n".toList

/-- The block appended when no `train_config` section exists
(`_modify_config` line 294). -/
def appendTrainBlock (u : IncrVals) : List Char :=
  "\ntrain_config \x7b\n".toList ++ incrSection u ++ "\x7d\n".toList

/-! ### Regex matching

`_modify_config` uses two multiline regexes and one substring test:
`^[ \t]*kafka_train_input\s*{` (presence only), `^\s*train_config\s*{`
(searched, and substituted once with the match followed by a newline and
`incr_section`), and `'incr_save_config' in doc`.  Both regex patterns are
deterministic (no backtracking can succeed where greedy matching fails,
because the character after each starred class is not in the class), so
they are embedded as greedy scanners.  `^` in multiline mode anchors at
position 0 or right after a newline, which the scanners track with a
line-start flag. -/

/-- The literal `kafka_train_input` as an explicit character list. -/
def litKTI : List Char :=
  ['k', 'a', 'f', 'k', 'a', '_', 't', 'r', 'a', 'i', 'n', '_', 'i', 'n', 'p',
    'u', 't']

/-- The literal `train_config`. -/
def litTC : List Char :=
  ['t', 'r', 'a', 'i', 'n', '_', 'c', 'o', 'n', 'f', 'i', 'g']

/-- The literal `incr_save_config`. -/
def litIncr : List Char :=
  ['i', 'n', 'c', 'r', '_', 's', 'a', 'v', 'e', '_', 'c', 'o', 'n', 'f', 'i',
    'g']

/-- Does `[ \t]*kafka_train_input\s*{` match at the head of `s`? -/
def kafkaMatchHere (s : List Char) : Bool :=
  let s1 := s.dropWhile isIndent
  if litKTI.isPrefixOf s1 then
    match (s1.drop litKTI.length).dropWhile isWs with
    | c :: _ => c = lbraceC
    | [] => false
  else false

/-- Scan for a line-start position where the `kafka_train_input` pattern
matches; `ls` says whether the current position is a line start. -/
def containsKafkaAux : List Char → Bool → Bool
  | [], _ => false
  | c :: rest, ls =>
    (ls && kafkaMatchHere (c :: rest)) || containsKafkaAux rest (c == nl)

/-- `re.compile(r'^[ \t]*kafka_train_input\s*{', re.MULTILINE).search(d)`
succeeds. -/
def containsKafka (d : List Char) : Bool := containsKafkaAux d true

/-- Match `\s*train_config\s*{` at the head of `s`, returning the matched
text and the remainder. -/
def tcMatchHere (s : List Char) : Option (List Char × List Char) :=
  let w1 := s.takeWhile isWs
  let r1 := s.dropWhile isWs
  if litTC.isPrefixOf r1 then
    let r2 := r1.drop litTC.length
    let w2 := r2.takeWhile isWs
    match r2.dropWhile isWs with
    | c :: b =>
      if c = lbraceC then some (w1 ++ litTC ++ w2 ++ [lbraceC], b) else none
    | [] => none
  else none

/-- Find the leftmost line-start match of `^\s*train_config\s*{`,
returning (prefix before the match, matched text, remainder). -/
def tcScan : List Char → Bool → Option (List Char × List Char × List Char)
  | [], _ => none
  | c :: rest, ls =>
    match (if ls then tcMatchHere (c :: rest) else none) with
    | some (m, b) => some ([], m, b)
    | none =>
      match tcScan rest (c == nl) with
      | some (a, m, b) => some (c :: a, m, b)
      | none => none

/-- Python's substring test `pat in d` (for nonempty `pat`). -/
def containsSub (pat : List Char) : List Char → Bool
  | [] => pat.isEmpty
  | s@(_ :: rest) => pat.isPrefixOf s || containsSub pat rest

/-- `'incr_save_config' in doc`. -/
def hasIncr (d : List Char) : Bool := containsSub litIncr d

/-- Number of positions of `d` at which `pat` occurs as a substring. -/
def countSub (pat : List Char) : List Char → Nat
  | [] => 0
  | s@(_ :: rest) => (if pat.isPrefixOf s then 1 else 0) + countSub pat rest

/-- Number of line-start positions at which the `kafka_train_input`
pattern matches. -/
def countKafkaAux : List Char → Bool → Nat
  | [], _ => 0
  | c :: rest, ls =>
    (if ls && kafkaMatchHere (c :: rest) then 1 else 0)
      + countKafkaAux rest (c == nl)

def countKafka (d : List Char) : Nat := countKafkaAux d true

/-- The templated values of one generation run. -/
structure Mods where
  kafka : KafkaVals
  incr : IncrVals

/-- The incremental-section step of `_modify_config` (lines 287-294):
insert `incr_save_config` after the first `train_config {` match if the
document does not already contain it, skip if it does, and append a fresh
`train_config` block if there is no match and no occurrence.  The
source's three-way `if search and not present / elif present / else` is
rendered with the `present` test first, which covers the same three
cases. -/
def incrStep (u : IncrVals) (d1 : List Char) : List Char :=
  if hasIncr d1 then d1
  else
    match tcScan d1 true with
    | some (a, mm, b) => a ++ mm ++ (nl :: incrSection u) ++ b
    | none => d1 ++ appendTrainBlock u

/-- `_modify_config(base_config, modifications)` (lines 250-296):
prepend the kafka section unless the kafka pattern already matches
(lines 282-284), then run the incremental-section step. -/
def modify_config (m : Mods) (base : List Char) : List Char :=
  incrStep m.incr
    (if containsKafka base then base else kafkaSection m.kafka ++ base)

/-- Position `p ++ ·` is one where a multiline `^` anchor can match when
the scan began at a line start (`ls`): either nothing was consumed yet, or
the last consumed character was a newline. -/
def LineStartPre (ls : Bool) (p : List Char) : Prop :=
  (p = [] ∧ ls = true) ∨ p.getLast? = some nl

/-- Every single quote in the scanned text is the second character of a
backslash-quote pair. -/
def quotesEscaped : List Char → Bool
  | [] => true
  | [c] => c ≠ quoteC
  | c :: c2 :: rest =>
    if c = quoteC then false
    else if c = bslashC && c2 = quoteC then quotesEscaped rest
    else quotesEscaped (c2 :: rest)

/-- The last `n` elements of a list. -/
def takeLastN (n : Nat) (l : List α) : List α := l.drop (l.length - n)

/-! ### Streaming-config validation

Two validators exist: `_validate_kafka_config` in `api/routes_online.py`
(lines 64-87, with the port-range check) and the inline validation in
`start_incremental_training` (lines 110-129, without the range check).
Both split the `servers` string on commas, strip each part, skip empty
parts, and require a `host:port` shape via `rsplit(':', 1)` with nonempty
host and all-digit port. -/

/-- A Python dict possibly holding the streaming-config keys; `none`
models an absent key and the validators treat an empty string as missing
too (falsy). -/
structure KafkaDict where
  servers : Option String := none
  topic : Option String := none
  group : Option String := none
  offset_time : Option String := none
deriving DecidableEq

/-- `k not in cfg or not cfg.get(k)`. -/
def fieldMissing : Option String → Bool
  | none => true
  | some s => s == ""

/-- The trainer's `missing` test over the required keys
`('servers', 'topic')`. -/
def kafkaMissingFields (cfg : KafkaDict) : Bool :=
  fieldMissing cfg.servers || fieldMissing cfg.topic

/-- `servers.split(',')`. -/
def splitOnComma : List Char → List (List Char)
  | [] => [[]]
  | c :: rest =>
    if c = ',' then [] :: splitOnComma rest
    else
      match splitOnComma rest with
      | g :: gs => (c :: g) :: gs
      | [] => [[c]]

/-- Python `str.strip()` (whitespace from both ends). -/
def pyStrip (s : List Char) : List Char :=
  ((s.dropWhile isWs).reverse.dropWhile isWs).reverse

/-- The nonempty stripped entries of the bootstrap-server string (empty
parts are skipped by both validators via `if not part: continue`). -/
def serverParts (servers : String) : List (List Char) :=
  ((splitOnComma servers.toList).map pyStrip).filter (fun p => !p.isEmpty)

/-- `part.rsplit(':', 1)` guarded by `':' in part`: split at the last
colon, `none` if the part has no colon. -/
def rsplitColon (part : List Char) : Option (List Char × List Char) :=
  match part.reverse.dropWhile (fun c => c != ':') with
  | c :: hrev =>
    if c = ':' then
      some (hrev.reverse, (part.reverse.takeWhile (fun c => c != ':')).reverse)
    else none
  | [] => none

/-- Entry check of the trainer's inline validation (no port-range
check): bad when there is no colon, the host is empty, or the port is not
a nonempty digit string. -/
def trainerEntryBad (part : List Char) : Bool :=
  match rsplitColon part with
  | none => true
  | some (h, p) => h.isEmpty || p.isEmpty || !p.all Char.isDigit

/-- `int(port)` for a digit string. -/
def digitsToNat (p : List Char) : Nat :=
  p.foldl (fun acc c => acc * 10 + (c.toNat - 48)) 0

/-- Entry check of the route validator `_validate_kafka_config`,
including the port-range test `1 <= int(port) <= 65535`. -/
def routeEntryBad (part : List Char) : Bool :=
  match rsplitColon part with
  | none => true
  | some (h, p) =>
    if h.isEmpty || p.isEmpty || !p.all Char.isDigit then true
    else
      let n := digitsToNat p
      decide (n < 1) || decide (65535 < n)

/-- `_validate_kafka_config(cfg)` from `api/routes_online.py`: returns
(ok, error message). -/
def validate_kafka_config (cfg : KafkaDict) : Bool × String :=
  if fieldMissing cfg.servers then (false, "Missing kafka_config field servers")
  else if fieldMissing cfg.topic then (false, "Missing kafka_config field topic")
  else
    let bad := (serverParts (cfg.servers.getD "")).filter routeEntryBad
    if bad.isEmpty then (true, "")
    else (false, "Invalid bootstrap servers entries")

/-- The trainer's `bad_parts` test (`start_incremental_training` lines
115-129). -/
def trainerServersBad (servers : String) : Bool :=
  !((serverParts servers).filter trainerEntryBad).isEmpty

/-- The claim's reading of a well-formed bootstrap-server entry, stated
from the specification's words: `host:port` with a nonempty host, a
numeric port (the text after the last colon) in [1, 65535]. -/
def SpecValidEntry (part : List Char) : Prop :=
  ∃ host port, part = host ++ ':' :: port ∧ host ≠ [] ∧ port ≠ [] ∧
    (∀ c ∈ port, c.isDigit = true) ∧ ':' ∉ port ∧
    1 ≤ digitsToNat port ∧ digitsToNat port ≤ 65535

/-! ### Environment-override filtering and overlay

`_filter_env_overrides` (routes lines 102-108) drops keys whose lowercase
form is in the fixed denylist; the trainer overlays the surviving
overrides onto a copy of the process environment
(`start_incremental_training` lines 144-146). -/

def DISALLOWED_ENV_KEYS : List String := ["pythonpath", "path", "ld_preload"]

def lowerKey (k : String) : String := String.mk (k.toList.map Char.toLower)

/-- `_filter_env_overrides(env)`. -/
def filter_env_overrides (env : List (String × String)) : List (String × String) :=
  env.filter fun kv => !(DISALLOWED_ENV_KEYS.contains (lowerKey kv.1))

/-- Dict lookup. -/
def envLookup (l : List (String × String)) (k : String) : Option String :=
  (l.find? fun kv => kv.1 == k).map Prod.snd

/-- `full_env = os.environ.copy(); full_env.update(overrides)`: the value
the spawned process sees for key `k`. -/
def overlayEnv (base ov : List (String × String)) (k : String) : Option String :=
  match envLookup ov k with
  | some v => some v
  | none => envLookup base k

/-- The environment the subprocess is spawned with when overrides arrive
through the API start endpoint: the route filters them
(`routes_online.py` line 211), the trainer overlays them (lines
144-146). -/
def spawn_env (base : List (String × String))
    (ov : Option (List (String × String))) (k : String) : Option String :=
  match ov with
  | none => envLookup base k
  | some o => overlayEnv base (filter_env_overrides o) k

/-! ### The supervisor state machine

`EasyRecOnlineTrainer` holds its mutable fields behind one lock; the
claims concern `start_incremental_training`, `stop_training`, the
watchdog loop body, `update_restart_policy` and `tail_logs`.  The fields
touched by those operations are embedded below; blocking operations
(subprocess spawn/poll, file IO, sleeps) are abstracted into explicit
inputs describing their outcomes. -/

/-- Last-used start parameters (`_last_start_params`). -/
structure StartParams where
  kafka : KafkaDict
  envOverrides : Option (List (String × String))
deriving DecidableEq

structure Trainer where
  is_training : Bool
  has_process : Bool          -- `training_process is not None`
  restart_count : Int         -- `_restart_count`
  max_restarts : Int
  restart_backoff_sec : Int
  watchdog_interval_sec : Int
  heartbeat_timeout_sec : Int
  hung_restart_sec : Int
  stdout_tail : List String   -- `_log_tail_cache['stdout']`
  stderr_tail : List String   -- `_log_tail_cache['stderr']`
  temp_config : Option String -- last generated temp config still on disk
  stop_signal_file : Bool     -- OSS_STOP_SIGNAL marker exists
  last_start_params : Option StartParams
  stop_logs_event : Bool      -- `_stop_logs_event`
  watchdog_stop_event : Bool  -- `_watchdog_stop_event`
deriving DecidableEq

/-- The `__init__` defaults. -/
def initialTrainer : Trainer :=
  { is_training := false, has_process := false, restart_count := 0
    max_restarts := 3, restart_backoff_sec := 10, watchdog_interval_sec := 5
    heartbeat_timeout_sec := 30, hung_restart_sec := 90
    stdout_tail := [], stderr_tail := [], temp_config := none
    stop_signal_file := false, last_start_params := none
    stop_logs_event := false, watchdog_stop_event := false }

/-- `deque(maxlen=500).append`: keep the most recent 500 lines. -/
def dequePush (cache : List String) (line : String) : List String :=
  let c := cache ++ [line]
  c.drop (c.length - 500)

def dequePushAll (cache : List String) (lines : List String) : List String :=
  lines.foldl dequePush cache

/-- Outcomes of the external steps taken by `start_incremental_training`:
config generation (file read), process spawn, and the early poll after the
0.5 s window together with any stderr the dead process buffered. -/
structure StartEnv where
  gen_ok : Bool
  temp_path : String
  spawn_ok : Bool
  early_exit : Option Int
  buffered_stderr : List String

/-- `start_incremental_training` (lines 100-197).  Mutation order follows
the source: the watchdog interval and restart counter are set before
validation; the previous temp config is removed before generation; the
process handle, `is_training` and the log-thread event are set before the
early-failure check; policy, start parameters and the watchdog only on
full success. -/
def start_incremental_training (s : Trainer) (kafka : KafkaDict)
    (maxRestarts restartBackoff : Int)
    (envOverrides : Option (List (String × String)))
    (watchdogInterval : Int) (env : StartEnv) : Trainer × Bool :=
  if s.is_training then (s, false)
  else
    let s1 : Trainer :=
      { s with watchdog_interval_sec := max 1 watchdogInterval
               restart_count := 0 }
    if kafkaMissingFields kafka then (s1, false)
    else if trainerServersBad (kafka.servers.getD "") then (s1, false)
    else
      let s2 : Trainer := { s1 with temp_config := none }
      if !env.gen_ok then
        ({ s2 with has_process := false, is_training := false }, false)
      else
        let s3 : Trainer := { s2 with temp_config := some env.temp_path }
        if !env.spawn_ok then
          ({ s3 with has_process := false, is_training := false }, false)
        else
          let s4 : Trainer :=
            { s3 with has_process := true, is_training := true
                      stop_logs_event := false }
          match env.early_exit with
          | some _ =>
            let s5 : Trainer :=
              { s4 with stderr_tail :=
                          dequePushAll s4.stderr_tail env.buffered_stderr }
            ({ s5 with stop_logs_event := true, has_process := false
                       is_training := false }, false)
          | none =>
            ({ s4 with max_restarts := maxRestarts
                       restart_backoff_sec := restartBackoff
                       last_start_params :=
                         some { kafka := kafka, envOverrides := envOverrides }
                       watchdog_stop_event := false }, true)

/-- `stop_training` (lines 521-594), happy path: create the stop-signal
marker, wait for exit, signal both events, remove the marker and the temp
config, transition out of training.  Returns `not is_training`. -/
def stop_training (s : Trainer) : Trainer × Bool :=
  if !s.has_process || !s.is_training then (s, false)
  else
    ({ s with stop_signal_file := false, temp_config := none
              stop_logs_event := true, watchdog_stop_event := true
              is_training := false, has_process := false }, true)

/-- The restart attempt scheduled by the watchdog (lines 458-504): after
the backoff it re-checks `is_training` and the stop event, removes the old
temp config, regenerates (may fail), then spawns (may fail).  Returns the
new state and whether a fresh process was spawned. -/
def attemptRestart (s : Trainer) (genOk spawnOk : Bool) (newTemp : String) :
    Trainer × Bool :=
  if !s.is_training || s.watchdog_stop_event then (s, false)
  else
    let s0 : Trainer := { s with temp_config := none }
    if !genOk then
      ({ s0 with is_training := false, stop_logs_event := true }, false)
    else
      let s1 : Trainer := { s0 with temp_config := some newTemp }
      if !spawnOk then
        ({ s1 with is_training := false, stop_logs_event := true }, false)
      else
        ({ s1 with stop_logs_event := false, has_process := true }, true)

/-- One watchdog loop-body decision (lines 423-457): `rc` is the poll
result, `sinceHb` the heartbeat age in seconds, `progressed` the outcome
of the checkpoint rescan.  Returns the new state and whether a restart
spawned a process. -/
def watchdog_check (s : Trainer) (rc : Option Int) (sinceHb : Int)
    (progressed : Bool) (genOk spawnOk : Bool) (newTemp : String) :
    Trainer × Bool :=
  if !s.is_training || !s.has_process then (s, false)
  else
    match rc with
    | none =>
      if sinceHb > s.heartbeat_timeout_sec then
        if progressed then (s, false)
        else if sinceHb > s.hung_restart_sec then
          if s.restart_count < s.max_restarts then
            attemptRestart { s with restart_count := s.restart_count + 1 }
              genOk spawnOk newTemp
          else ({ s with is_training := false, stop_logs_event := true }, false)
        else (s, false)
      else (s, false)
    | some _ =>
      if s.restart_count < s.max_restarts && !s.stop_logs_event then
        attemptRestart { s with restart_count := s.restart_count + 1 }
          genOk spawnOk newTemp
      else ({ s with is_training := false, stop_logs_event := true }, false)

/-- The observations of one watchdog tick. -/
structure WdTick where
  rc : Option Int
  sinceHb : Int
  progressed : Bool
  genOk : Bool
  spawnOk : Bool
  newTemp : String

/-- Run the watchdog over a sequence of tick observations, counting the
processes it spawns. -/
def run_watchdog : Trainer → List WdTick → Trainer × Nat
  | s, [] => (s, 0)
  | s, t :: ts =>
    let r := watchdog_check s t.rc t.sinceHb t.progressed t.genOk t.spawnOk t.newTemp
    let rest := run_watchdog r.1 ts
    (rest.1, (if r.2 then 1 else 0) + rest.2)

/-- `update_restart_policy` (lines 399-405): provided values are clamped
with `max(0, value)` and the current policy is returned. -/
def update_restart_policy (s : Trainer) (maxRestarts backoffSec : Option Int) :
    Trainer × (Int × Int) :=
  let s1 : Trainer :=
    match maxRestarts with
    | some v => { s with max_restarts := max 0 v }
    | none => s
  let s2 : Trainer :=
    match backoffSec with
    | some v => { s1 with restart_backoff_sec := max 0 v }
    | none => s1
  (s2, (s2.max_restarts, s2.restart_backoff_sec))

/-! ### Log tailing -/

/-- Python's `list(cache)[-lines:]`: for `lines = 0` this is the whole
list, otherwise the last `lines` entries. -/
def pyTailSlice (l : List String) (lines : Nat) : List String :=
  if lines = 0 then l else l.drop (l.length - lines)

structure TailResult where
  stdout : Option (List String)
  stderr : Option (List String)
deriving DecidableEq

/-- `tail_logs(lines, stream)` (lines 629-636). -/
def tail_logs (s : Trainer) (lines : Nat) (stream : String) : TailResult :=
  { stdout :=
      if stream == "stdout" || stream == "both" then
        some (pyTailSlice s.stdout_tail lines)
      else none
    stderr :=
      if stream == "stderr" || stream == "both" then
        some (pyTailSlice s.stderr_tail lines)
      else none }

/-! ### The API start route (`routes_online.py` lines 170-230) -/

inductive RouteStartOutcome where
  | rejected (code : Nat) (msg : String)
  | conflict
  | delegated (result : Trainer × Bool)

structure RouteStartData where
  kafka_config : Option KafkaDict := none
  max_restarts : Int := 3
  restart_backoff_sec : Int := 10
  watchdog_interval_sec : Int := 5
  env_overrides : Option (List (String × String)) := none

/-- The default kafka config substituted when the request omits one. -/
def defaultKafka : KafkaDict :=
  { servers := some "localhost:9092", topic := some "easyrec_training"
    group := some "easyrec_online" }

/-- The `/training/start` handler: validate the streaming config, check
numeric ranges, filter env overrides, reject a concurrent start, then
delegate to the trainer. -/
def route_start (s : Trainer) (data : RouteStartData) (env : StartEnv) :
    RouteStartOutcome :=
  let kafka := data.kafka_config.getD defaultKafka
  let v := validate_kafka_config kafka
  if !v.1 then .rejected 400 v.2
  else if data.max_restarts < 0 || data.restart_backoff_sec < 0
      || data.watchdog_interval_sec < 1 then
    .rejected 400 "Invalid numeric range for restarts backoff interval"
  else
    let ov := data.env_overrides.map filter_env_overrides
    if s.is_training then .conflict
    else
      .delegated (start_incremental_training s kafka data.max_restarts
        data.restart_backoff_sec ov data.watchdog_interval_sec env)

/-! ### Concrete example values used by witnesses and counterexamples -/

def exKafka : KafkaDict :=
  { servers := some "k1:9092", topic := some "tt", group := some "gg" }

def exStartEnv : StartEnv :=
  { gen_ok := true, temp_path := "tmpcfg", spawn_ok := true
    early_exit := none, buffered_stderr := [] }

/-- The supervisor state right after a successful `start` with
`maxRestarts = 2`. -/
def exStarted : Trainer :=
  (start_incremental_training initialTrainer exKafka 2 10 none 5 exStartEnv).1

/-- A watchdog tick observing a crashed process, with a restart that
would succeed. -/
def exCrashTick : WdTick :=
  { rc := some 1, sinceHb := 0, progressed := false, genOk := true
    spawnOk := true, newTemp := "tmpcfg2" }

/-- A running supervisor whose restart budget is exhausted and whose last
generated temp config is still on disk. -/
def exExhausted : Trainer :=
  { initialTrainer with is_training := true, has_process := true
                        restart_count := 3, max_restarts := 3
                        temp_config := some "tmpcfg" }

/-- A trainer whose stdout tail cache holds a single line. -/
def exOneLine : Trainer := { initialTrainer with stdout_tail := ["a"] }

/-- Ten log lines. -/
def exTen : List String :=
  ["l01", "l02", "l03", "l04", "l05", "l06", "l07", "l08", "l09", "l10"]


/-! ## Theorems -/

/-! ### Watchdog restart accounting -/

theorem attemptRestart_max (s : Trainer) (g sp : Bool) (np : String) :
    (attemptRestart s g sp np).1.max_restarts = s.max_restarts := by
  unfold attemptRestart
  dsimp only
  repeat' split
  all_goals rfl

theorem watchdog_check_max (s : Trainer) (rc : Option Int) (shb : Int)
    (pr g sp : Bool) (np : String) :
    (watchdog_check s rc shb pr g sp np).1.max_restarts = s.max_restarts := by
  unfold watchdog_check
  repeat' split
  all_goals first
    | rfl
    | rw [attemptRestart_max]

theorem attemptRestart_count (s : Trainer) (g sp : Bool) (np : String) :
    (attemptRestart s g sp np).1.restart_count = s.restart_count := by
  unfold attemptRestart
  dsimp only
  repeat' split
  all_goals rfl

theorem watchdog_check_count_le (s : Trainer) (rc : Option Int) (shb : Int)
    (pr g sp : Bool) (np : String)
    (h : s.restart_count <= s.max_restarts) :
    (watchdog_check s rc shb pr g sp np).1.restart_count <= s.max_restarts := by
  unfold watchdog_check
  repeat' split
  all_goals simp_all [attemptRestart_count]
  all_goals omega

theorem watchdog_check_count_mono (s : Trainer) (rc : Option Int) (shb : Int)
    (pr g sp : Bool) (np : String) :
    s.restart_count <= (watchdog_check s rc shb pr g sp np).1.restart_count := by
  unfold watchdog_check
  repeat' split
  all_goals simp [attemptRestart_count]

theorem watchdog_check_spawn_count (s : Trainer) (rc : Option Int) (shb : Int)
    (pr g sp : Bool) (np : String)
    (h : (watchdog_check s rc shb pr g sp np).2 = true) :
    (watchdog_check s rc shb pr g sp np).1.restart_count = s.restart_count + 1 := by
  unfold watchdog_check at h ⊢
  repeat' split at h
  all_goals simp_all [attemptRestart_count]

theorem run_watchdog_max (s : Trainer) (ts : List WdTick) :
    (run_watchdog s ts).1.max_restarts = s.max_restarts := by
  induction ts generalizing s with
  | nil => rfl
  | cons t ts ih =>
    show (run_watchdog (watchdog_check s _ _ _ _ _ _).1 ts).1.max_restarts = _
    rw [ih, watchdog_check_max]

theorem run_watchdog_count_le (s : Trainer) (ts : List WdTick)
    (h : s.restart_count <= s.max_restarts) :
    (run_watchdog s ts).1.restart_count <= s.max_restarts := by
  induction ts generalizing s with
  | nil => exact h
  | cons t ts ih =>
    show (run_watchdog (watchdog_check s _ _ _ _ _ _).1 ts).1.restart_count <= _
    have h1 := watchdog_check_count_le s t.rc t.sinceHb t.progressed t.genOk
      t.spawnOk t.newTemp h
    have h2 := watchdog_check_max s t.rc t.sinceHb t.progressed t.genOk
      t.spawnOk t.newTemp
    have h3 := ih (watchdog_check s t.rc t.sinceHb t.progressed t.genOk
      t.spawnOk t.newTemp).1 (by rw [h2]; exact h1)
    rw [h2] at h3
    exact h3

theorem run_watchdog_spawns (s : Trainer) (ts : List WdTick) :
    s.restart_count + ((run_watchdog s ts).2 : Int)
      <= (run_watchdog s ts).1.restart_count := by
  induction ts generalizing s with
  | nil => simp [run_watchdog]
  | cons t ts ih =>
    have hmono := watchdog_check_count_mono s t.rc t.sinceHb t.progressed
      t.genOk t.spawnOk t.newTemp
    have hic := ih (watchdog_check s t.rc t.sinceHb t.progressed t.genOk
      t.spawnOk t.newTemp).1
    show s.restart_count +
        (((if (watchdog_check s t.rc t.sinceHb t.progressed t.genOk t.spawnOk
            t.newTemp).2 then 1 else 0)
          + (run_watchdog (watchdog_check s t.rc t.sinceHb t.progressed t.genOk
              t.spawnOk t.newTemp).1 ts).2 : Nat) : Int)
        <= (run_watchdog (watchdog_check s t.rc t.sinceHb t.progressed t.genOk
            t.spawnOk t.newTemp).1 ts).1.restart_count
    by_cases hsp : (watchdog_check s t.rc t.sinceHb t.progressed t.genOk
        t.spawnOk t.newTemp).2 = true
    · have hc := watchdog_check_spawn_count s t.rc t.sinceHb t.progressed
        t.genOk t.spawnOk t.newTemp hsp
      rw [hsp]
      push_cast
      omega
    · simp only [Bool.not_eq_true] at hsp
      rw [hsp]
      push_cast
      omega

set_option maxRecDepth 10000

/-- C1: with a configured restart budget `m`, starting from a freshly
started supervisor (counter 0), any sequence of watchdog observations
spawns at most `m` restart processes and the restart counter never
exceeds `m`; a crash or hang observed while the counter is below the
budget increments the counter and triggers a restart, while a crash or
hang observed once the budget is reached transitions to the terminal
Failed state (`is_training := false`) with no process spawned;
concretely, with `maxRestarts = 2`, three consecutive crashes produce
exactly 2 restarts, a counter of 2, and the Failed state. -/
theorem claim_C1 (s : Trainer) (m : Int) (ts : List WdTick)
    (hmax : s.max_restarts = m) (hcnt : s.restart_count = 0) (hm : 0 <= m) :
    ((run_watchdog s ts).1.restart_count <= m
      ∧ ((run_watchdog s ts).2 : Int) <= m)
    ∧ (∀ t : Trainer, ∀ rc shb : Int, ∀ pr : Bool, ∀ np : String,
        t.is_training = true → t.has_process = true →
        t.stop_logs_event = false → t.watchdog_stop_event = false →
        t.restart_count < t.max_restarts →
        (watchdog_check t (some rc) shb pr true true np).2 = true
          ∧ (watchdog_check t (some rc) shb pr true true np).1.restart_count
              = t.restart_count + 1
          ∧ (watchdog_check t (some rc) shb pr true true np).1.is_training
              = true)
    ∧ (∀ t : Trainer, ∀ shb : Int, ∀ np : String,
        t.is_training = true → t.has_process = true →
        t.watchdog_stop_event = false →
        shb > t.heartbeat_timeout_sec → shb > t.hung_restart_sec →
        t.restart_count < t.max_restarts →
        (watchdog_check t none shb false true true np).2 = true
          ∧ (watchdog_check t none shb false true true np).1.restart_count
              = t.restart_count + 1
          ∧ (watchdog_check t none shb false true true np).1.is_training
              = true)
    ∧ (∀ t : Trainer, ∀ rc shb : Int, ∀ pr g sp : Bool, ∀ np : String,
        t.is_training = true → t.has_process = true →
        t.max_restarts <= t.restart_count →
        watchdog_check t (some rc) shb pr g sp np
          = ({ t with is_training := false, stop_logs_event := true }, false))
    ∧ (∀ t : Trainer, ∀ shb : Int, ∀ g sp : Bool, ∀ np : String,
        t.is_training = true → t.has_process = true →
        shb > t.heartbeat_timeout_sec → shb > t.hung_restart_sec →
        t.max_restarts <= t.restart_count →
        watchdog_check t none shb false g sp np
          = ({ t with is_training := false, stop_logs_event := true }, false))
    ∧ ((run_watchdog exStarted [exCrashTick, exCrashTick, exCrashTick]).1.restart_count = 2
        ∧ (run_watchdog exStarted [exCrashTick, exCrashTick, exCrashTick]).2 = 2
        ∧ (run_watchdog exStarted [exCrashTick, exCrashTick, exCrashTick]).1.is_training = false
        ∧ exStarted.max_restarts = 2 ∧ exStarted.restart_count = 0) := by
  refine ⟨⟨?_, ?_⟩, ?_, ?_, ?_, ?_, by decide⟩
  · have := run_watchdog_count_le s ts (by omega)
    omega
  · have h1 := run_watchdog_spawns s ts
    have h2 := run_watchdog_count_le s ts (by omega)
    omega
  · intro t rc shb pr np h1 h2 h3 h4 h5
    simp [watchdog_check, attemptRestart, h1, h2, h3, h4, h5]
  · intro t shb np h1 h2 h4 h5 h6 h7
    simp [watchdog_check, attemptRestart, h1, h2, h4, h5, h6, h7]
  · intro t rc shb pr g sp np h1 h2 h3
    simp [watchdog_check, h1, h2]
    omega
  · intro t shb g sp np h1 h2 h3 h4 h5
    simp [watchdog_check, h1, h2, h3, h4]
    omega

/-- Witness for C1 at the concrete budget `m = 2`. -/
theorem claim_C1_witness :
    exStarted.max_restarts = 2 ∧ exStarted.restart_count = 0
      ∧ (run_watchdog exStarted [exCrashTick, exCrashTick, exCrashTick]).1.restart_count <= 2 :=
  ⟨by decide, by decide,
    (claim_C1 exStarted 2 [exCrashTick, exCrashTick, exCrashTick]
      (by decide) (by decide) (by decide)).1.1⟩

/-! ### Start paths: early failure, validation-failure frame, policy -/

/-- C3: when the spawned subprocess has already exited at the
early-failure poll, `start` returns false, the supervisor ends up not
training with no process handle, the restart counter stays 0 (not
counted as a restart) and the dead process's buffered stderr is drained
into the stderr tail cache; the restart policy is left untouched. -/
theorem claim_C3 (s : Trainer) (kafka : KafkaDict) (mr bo wi : Int)
    (ov : Option (List (String × String))) (env : StartEnv) (rc : Int)
    (hnt : s.is_training = false)
    (hmiss : kafkaMissingFields kafka = false)
    (hbad : trainerServersBad (kafka.servers.getD "") = false)
    (hgen : env.gen_ok = true) (hspawn : env.spawn_ok = true)
    (hearly : env.early_exit = some rc) :
    (start_incremental_training s kafka mr bo ov wi env).2 = false
      ∧ (start_incremental_training s kafka mr bo ov wi env).1.is_training = false
      ∧ (start_incremental_training s kafka mr bo ov wi env).1.has_process = false
      ∧ (start_incremental_training s kafka mr bo ov wi env).1.restart_count = 0
      ∧ (start_incremental_training s kafka mr bo ov wi env).1.stderr_tail
          = dequePushAll s.stderr_tail env.buffered_stderr
      ∧ (start_incremental_training s kafka mr bo ov wi env).1.max_restarts
          = s.max_restarts := by
  simp [start_incremental_training, hnt, hmiss, hbad, hgen, hspawn, hearly]

/-- Witness for C3: a concrete start whose process dies inside the
early-failure window. -/
theorem claim_C3_witness :
    initialTrainer.is_training = false
      ∧ (start_incremental_training initialTrainer exKafka 3 10 none 5
          { gen_ok := true, temp_path := "tmpcfg", spawn_ok := true
            early_exit := some 1, buffered_stderr := ["boom"] }).2 = false :=
  ⟨rfl, (claim_C3 initialTrainer exKafka 3 10 5 none _ 1 rfl (by decide)
    (by decide) rfl rfl rfl).1⟩

/-- C10: a `start` call rejected by streaming-config validation returns
false having already reset the restart counter to 0 and overwritten the
watchdog interval with `max 1 watchdogInterval`; every other field
(including `is_training`, the process handle, and the stored start
parameters) is exactly as before. -/
theorem claim_C10 (s : Trainer) (kafka : KafkaDict) (mr bo wi : Int)
    (ov : Option (List (String × String))) (env : StartEnv)
    (hnt : s.is_training = false)
    (hbad : kafkaMissingFields kafka = true
      ∨ trainerServersBad (kafka.servers.getD "") = true) :
    start_incremental_training s kafka mr bo ov wi env
      = ({ s with watchdog_interval_sec := max 1 wi, restart_count := 0 },
          false) := by
  rcases hbad with h | h
  · simp [start_incremental_training, hnt, h]
  · by_cases h2 : kafkaMissingFields kafka
    · simp [start_incremental_training, hnt, h2]
    · simp [start_incremental_training, hnt, h2, h]

/-- Witness for C10: a start with a missing `topic` field. -/
theorem claim_C10_witness :
    initialTrainer.is_training = false
      ∧ kafkaMissingFields { servers := some "k1:9092" } = true
      ∧ start_incremental_training initialTrainer { servers := some "k1:9092" }
          3 10 none 7 exStartEnv
        = ({ initialTrainer with watchdog_interval_sec := max 1 7
                                 restart_count := 0 }, false) :=
  ⟨rfl, by decide,
    claim_C10 initialTrainer { servers := some "k1:9092" } 3 10 7 none
      exStartEnv rfl (Or.inl (by decide))⟩

/-- C7: `update_restart_policy` clamps every provided value with
`max 0 _` (so provided values come back non-negative), returns the
current policy, and keeps non-negative stored values non-negative; after
`update_restart_policy (maxRestarts := 0)` on a running supervisor, the
next watchdog observation of a process exit, or of a hang past both
staleness thresholds, performs no restart and moves straight to the
terminal Failed state with no process spawned. -/
theorem claim_C7 (s : Trainer) (mr bo : Option Int) :
    (∀ v, mr = some v → (update_restart_policy s mr bo).2.1 = max 0 v
        ∧ 0 <= (update_restart_policy s mr bo).2.1)
    ∧ (∀ v, bo = some v → (update_restart_policy s mr bo).2.2 = max 0 v
        ∧ 0 <= (update_restart_policy s mr bo).2.2)
    ∧ (0 <= s.max_restarts → 0 <= (update_restart_policy s mr bo).2.1)
    ∧ (0 <= s.restart_backoff_sec → 0 <= (update_restart_policy s mr bo).2.2)
    ∧ ((update_restart_policy s mr bo).2.1
          = (update_restart_policy s mr bo).1.max_restarts
        ∧ (update_restart_policy s mr bo).2.2
          = (update_restart_policy s mr bo).1.restart_backoff_sec)
    ∧ (∀ rc shb : Int, ∀ pr g sp : Bool, ∀ np : String,
        0 <= s.restart_count → s.is_training = true → s.has_process = true →
        watchdog_check (update_restart_policy s (some 0) none).1 (some rc)
            shb pr g sp np
          = ({ (update_restart_policy s (some 0) none).1 with
                is_training := false, stop_logs_event := true }, false))
    ∧ (∀ shb : Int, ∀ g sp : Bool, ∀ np : String,
        0 <= s.restart_count → s.is_training = true → s.has_process = true →
        shb > s.heartbeat_timeout_sec → shb > s.hung_restart_sec →
        watchdog_check (update_restart_policy s (some 0) none).1 none shb
            false g sp np
          = ({ (update_restart_policy s (some 0) none).1 with
                is_training := false, stop_logs_event := true }, false)) := by
  refine ⟨?_, ?_, ?_, ?_, ?_, ?_, ?_⟩
  · rintro v rfl
    cases bo <;> simp [update_restart_policy] <;> try omega
  · rintro v rfl
    cases mr <;> simp [update_restart_policy] <;> try omega
  · intro h
    cases mr <;> cases bo <;> simp [update_restart_policy] <;> try omega
  · intro h
    cases mr <;> cases bo <;> simp [update_restart_policy] <;> try omega
  · cases mr <;> cases bo <;> simp [update_restart_policy]
  · intro rc shb pr g sp np h0 h1 h2
    have hlt : ¬ (s.restart_count < (0 : Int)) := by omega
    simp [update_restart_policy, watchdog_check, h1, h2, hlt]
  · intro shb g sp np h0 h1 h2 h3 h4
    have hlt : ¬ (s.restart_count < (0 : Int)) := by omega
    simp [update_restart_policy, watchdog_check, h1, h2, h3, h4, hlt]

/-- Witness for C7 with a concrete negative update and a concrete
crash-after-zero-budget state. -/
theorem claim_C7_witness :
    ((update_restart_policy initialTrainer (some (-5)) (some 20)).2.1 = max 0 (-5)
      ∧ 0 <= (update_restart_policy initialTrainer (some (-5)) (some 20)).2.1)
      ∧ watchdog_check
          (update_restart_policy exExhausted (some 0) none).1 (some 1) 0 false
          true true "t2"
        = ({ (update_restart_policy exExhausted (some 0) none).1 with
              is_training := false, stop_logs_event := true }, false) :=
  ⟨(claim_C7 initialTrainer (some (-5)) (some 20)).1 (-5) rfl,
    (claim_C7 exExhausted (some 0) none).2.2.2.2.2.1 1 0 false true true "t2"
      (by decide) (by decide) (by decide)⟩

/-- C6 counterexample: a running supervisor with exhausted budget and a
temp config on disk; the watchdog observes a crash, transitions to the
terminal Failed state, yet the temp config file is still present
(nothing on this exit path deletes it, and the atexit hook only
terminates the process). -/
theorem claim_C6_counterexample :
    (watchdog_check exExhausted (some 1) 0 false true true "t2").1.is_training
        = false
      ∧ (watchdog_check exExhausted (some 1) 0 false true true "t2").1.temp_config
        = some "tmpcfg" := by
  decide

/-- C6 (amended): a completed `stop` call removes both the last
generated temp config and the stop-signal marker, but the watchdog's
transition to the terminal Failed state removes neither (both fields are
left exactly as they were). -/
theorem claim_C6 (s : Trainer) (hp : s.has_process = true)
    (ht : s.is_training = true) :
    ((stop_training s).1.temp_config = none
      ∧ (stop_training s).1.stop_signal_file = false
      ∧ (stop_training s).2 = true)
    ∧ (∀ rc shb : Int, ∀ pr g sp : Bool, ∀ np : String,
        s.max_restarts <= s.restart_count →
        (watchdog_check s (some rc) shb pr g sp np).1.temp_config = s.temp_config
          ∧ (watchdog_check s (some rc) shb pr g sp np).1.stop_signal_file
              = s.stop_signal_file
          ∧ (watchdog_check s (some rc) shb pr g sp np).1.is_training = false) := by
  constructor
  · simp [stop_training, hp, ht]
  · intro rc shb pr g sp np h
    have hlt : ¬ (s.restart_count < s.max_restarts) := by omega
    simp [watchdog_check, hp, ht, hlt]

/-- Witness for C6's amended statement on a concrete running state. -/
theorem claim_C6_witness :
    exExhausted.has_process = true ∧ exExhausted.is_training = true
      ∧ (stop_training exExhausted).1.temp_config = none :=
  ⟨rfl, rfl, (claim_C6 exExhausted rfl rfl).1.1⟩

/-! ### Log tail cache -/

theorem takeLastN_suffix (n : Nat) (l : List α) : takeLastN n l <:+ l :=
  List.drop_suffix _ _

theorem length_takeLastN (n : Nat) (l : List α) :
    (takeLastN n l).length = min n l.length := by
  simp only [takeLastN, List.length_drop]
  omega

theorem takeLastN_takeLastN (n m : Nat) (l : List α) :
    takeLastN n (takeLastN m l) = takeLastN (min n m) l := by
  unfold takeLastN
  rw [List.drop_drop, List.length_drop]
  congr 1
  omega

theorem takeLastN_append_left (n : Nat) (a b : List α) (h : n <= b.length) :
    takeLastN n (a ++ b) = takeLastN n b := by
  unfold takeLastN
  rw [List.length_append,
    show a.length + b.length - n = a.length + (b.length - n) by omega,
    List.drop_append]

theorem takeLastN_append_right (n : Nat) (a b : List α) (h : b.length <= n) :
    takeLastN n (a ++ b) = takeLastN (n - b.length) a ++ b := by
  unfold takeLastN
  rw [List.length_append,
    List.drop_append_of_le_length (by omega)]
  congr 2
  omega

theorem takeLastN_idem_append (n : Nat) (a b : List α) :
    takeLastN n (takeLastN n a ++ b) = takeLastN n (a ++ b) := by
  rcases Nat.le_total n b.length with h | h
  · rw [takeLastN_append_left n _ b h, takeLastN_append_left n a b h]
  · rw [takeLastN_append_right n _ b h, takeLastN_append_right n a b h,
      takeLastN_takeLastN]
    congr 2
    omega

theorem foldl_dequePush (ls : List String) (c : List String)
    (hc : c.length <= 500) :
    List.foldl dequePush c ls = takeLastN 500 (c ++ ls) := by
  induction ls generalizing c with
  | nil =>
    simp only [List.foldl_nil, List.append_nil, takeLastN]
    rw [show c.length - 500 = 0 by omega, List.drop_zero]
  | cons x xs ih =>
    rw [List.foldl_cons,
      ih (dequePush c x) (by
        show (takeLastN 500 (c ++ [x])).length <= 500
        rw [length_takeLastN]
        omega)]
    show takeLastN 500 (takeLastN 500 (c ++ [x]) ++ xs) = _
    rw [takeLastN_idem_append, List.append_assoc]
    rfl

theorem pyTailSlice_pos (l : List String) (n : Nat) (hn : 1 <= n) :
    pyTailSlice l n = takeLastN n l := by
  unfold pyTailSlice takeLastN
  rw [if_neg (by omega)]

/-- C8 counterexample: with a single cached stdout line, requesting
`lines = 0` returns the whole cache (Python's `[-0:]` slice), i.e. one
entry, not at most zero. -/
theorem claim_C8_counterexample :
    (tail_logs exOneLine 0 "stdout").stdout = some ["a"]
      ∧ ¬ (((tail_logs exOneLine 0 "stdout").stdout.getD []).length <= 0) := by
  decide

/-- C8 (amended, for `lines >= 1`): for each requested stream,
`tail_logs` returns at most `lines` entries, and they are exactly the
most recent `min lines (min 500 total)` appended lines as a suffix of
the append sequence, in original order; after 10 stdout lines,
`tail_logs 3 "stdout"` returns exactly the last 3 lines in order. -/
theorem claim_C8 (ls ms : List String) (n : Nat) (hn : 1 <= n) (s : Trainer)
    (hout : s.stdout_tail = List.foldl dequePush [] ls)
    (herr : s.stderr_tail = List.foldl dequePush [] ms) :
    (∀ stream, stream = "stdout" ∨ stream = "both" →
      ∃ r, (tail_logs s n stream).stdout = some r ∧ r.length <= n
        ∧ r.length = min n (min 500 ls.length) ∧ r <:+ ls)
    ∧ (∀ stream, stream = "stderr" ∨ stream = "both" →
      ∃ r, (tail_logs s n stream).stderr = some r ∧ r.length <= n
        ∧ r.length = min n (min 500 ms.length) ∧ r <:+ ms)
    ∧ (tail_logs { initialTrainer with
          stdout_tail := List.foldl dequePush [] exTen } 3 "stdout").stdout
        = some ["l08", "l09", "l10"] := by
  have key : ∀ xs : List String,
      pyTailSlice (List.foldl dequePush [] xs) n = takeLastN (min n 500) xs := by
    intro xs
    rw [pyTailSlice_pos _ _ hn, foldl_dequePush xs [] (by simp),
      List.nil_append, takeLastN_takeLastN]
  refine ⟨?_, ?_, by decide⟩
  · intro stream hstr
    refine ⟨pyTailSlice s.stdout_tail n, ?_, ?_, ?_, ?_⟩
    · rcases hstr with h | h <;> subst h <;> rfl
    · rw [hout, key, length_takeLastN]
      omega
    · rw [hout, key, length_takeLastN]
      omega
    · rw [hout, key]
      exact takeLastN_suffix _ _
  · intro stream hstr
    refine ⟨pyTailSlice s.stderr_tail n, ?_, ?_, ?_, ?_⟩
    · rcases hstr with h | h <;> subst h <;> rfl
    · rw [herr, key, length_takeLastN]
      omega
    · rw [herr, key, length_takeLastN]
      omega
    · rw [herr, key]
      exact takeLastN_suffix _ _

/-- Witness for C8's amended statement at `lines = 3` over ten lines. -/
theorem claim_C8_witness :
    (1 : Nat) <= 3
      ∧ (tail_logs { initialTrainer with
            stdout_tail := List.foldl dequePush [] exTen } 3 "stdout").stdout
          = some ["l08", "l09", "l10"] :=
  ⟨by decide,
    (claim_C8 exTen [] 3 (by decide)
      { initialTrainer with stdout_tail := List.foldl dequePush [] exTen }
      rfl rfl).2.2⟩

/-! ### Environment-override denylist -/

theorem envLookup_filter_none (ov : List (String × String)) (k : String)
    (hk : DISALLOWED_ENV_KEYS.contains (lowerKey k) = true) :
    envLookup (filter_env_overrides ov) k = none := by
  induction ov with
  | nil => rfl
  | cons kv l ih =>
    unfold filter_env_overrides at ih ⊢
    rw [List.filter_cons]
    split
    · rename_i hkeep
      unfold envLookup
      rw [List.find?_cons]
      have hne : (kv.1 == k) = false := by
        rcases hbe : kv.1 == k with _ | _
        · rfl
        · exfalso
          have heq : kv.1 = k := eq_of_beq hbe
          rw [heq, hk] at hkeep
          simp at hkeep
      rw [hne]
      exact ih
    · exact ih

/-- C5: overrides submitted through the start endpoint are filtered by
the fixed sensitive-variable denylist (case-insensitively) before being
overlaid onto the base process environment, so the spawned process's
value for any denylisted variable is always the base environment's
value, never the override's. -/
theorem claim_C5 (base ov : List (String × String)) (k : String)
    (hk : DISALLOWED_ENV_KEYS.contains (lowerKey k) = true) :
    spawn_env base (some ov) k = envLookup base k := by
  unfold spawn_env
  dsimp only
  unfold overlayEnv
  rw [envLookup_filter_none ov k hk]

/-- Witness for C5: a PYTHONPATH override is ignored in favour of the
base environment. -/
theorem claim_C5_witness :
    DISALLOWED_ENV_KEYS.contains (lowerKey "PYTHONPATH") = true
      ∧ spawn_env [("PYTHONPATH", "orig")] (some [("PYTHONPATH", "evil")])
          "PYTHONPATH"
        = envLookup [("PYTHONPATH", "orig")] "PYTHONPATH" :=
  ⟨by decide, claim_C5 _ _ _ (by decide)⟩

/-! ### Streaming-config validation at the start endpoint -/

theorem rsplitColon_sound (part h p : List Char)
    (hr : rsplitColon part = some (h, p)) :
    part = h ++ ':' :: p ∧ ':' ∉ p := by
  unfold rsplitColon at hr
  rcases hd : part.reverse.dropWhile (fun c => c != ':') with _ | ⟨c, hrev⟩ <;>
    rw [hd] at hr <;> dsimp only at hr
  · exact absurd hr (by simp)
  · by_cases hc : c = ':'
    · rw [if_pos hc] at hr
      have hh : h = hrev.reverse :=
        ((Prod.mk.injEq _ _ _ _).mp (Option.some.inj hr)).1.symm
      have hp : p = (part.reverse.takeWhile (fun c => c != ':')).reverse :=
        ((Prod.mk.injEq _ _ _ _).mp (Option.some.inj hr)).2.symm
      subst hc
      constructor
      · have hsplit : part.reverse.takeWhile (fun c => c != ':')
            ++ part.reverse.dropWhile (fun c => c != ':') = part.reverse :=
          List.takeWhile_append_dropWhile _ _
        rw [hd] at hsplit
        have hpr : part = (part.reverse.takeWhile (fun c => c != ':')
            ++ ':' :: hrev).reverse := by
          rw [hsplit, List.reverse_reverse]
        rw [hpr, List.reverse_append, List.reverse_cons, hh, hp]
        simp
      · intro hmem
        rw [hp, List.mem_reverse] at hmem
        have := List.mem_takeWhile_imp hmem
        simp at this
    · rw [if_neg hc] at hr
      exact absurd hr (by simp)

theorem routeEntryBad_false_spec (part : List Char)
    (hb : routeEntryBad part = false) : SpecValidEntry part := by
  unfold routeEntryBad at hb
  rcases hr : rsplitColon part with _ | ⟨h, p⟩ <;> rw [hr] at hb <;>
    dsimp only at hb
  · exact absurd hb (by simp)
  · rcases rsplitColon_sound part h p hr with ⟨hpart, hnc⟩
    split at hb
    · exact absurd hb (by simp)
    · rename_i hcond
      have hc1 : h.isEmpty = false := by
        rcases hh : h.isEmpty with _ | _
        · rfl
        · exact absurd (by rw [hh]; rfl) hcond
      have hc2 : p.isEmpty = false := by
        rcases hh : p.isEmpty with _ | _
        · rfl
        · exact absurd (by rw [hc1, hh]; rfl) hcond
      have hc3 : p.all Char.isDigit = true := by
        rcases hh : p.all Char.isDigit with _ | _
        · exact absurd (by rw [hc1, hc2, hh]; rfl) hcond
        · rfl
      have hb1 : ¬ (digitsToNat p < 1) := by
        intro hlt
        rw [decide_eq_true hlt] at hb
        simp at hb
      have hb2 : ¬ (65535 < digitsToNat p) := by
        intro hlt
        rw [decide_eq_true hlt] at hb
        simp at hb
      refine ⟨h, p, hpart, ?_, ?_, ?_, hnc, by omega, by omega⟩
      · intro hnil
        rw [hnil] at hc1
        simp at hc1
      · intro hnil
        rw [hnil] at hc2
        simp at hc2
      · intro c hcmem
        exact List.all_eq_true.mp hc3 c hcmem

theorem noColon_not_spec (part : List Char) (hnc : ':' ∉ part) :
    ¬ SpecValidEntry part := by
  rintro ⟨host, port, hpart, -⟩
  exact hnc (by rw [hpart]; simp)

/-- C4: the start endpoint rejects the request with a 400 error (so no
process is ever spawned) whenever the streaming config misses or has an
empty `servers`/`topic`, or any nonempty stripped bootstrap-server entry
is not `host:port` with a numeric port in [1, 65535]; in particular the
entry `badhost` is rejected. -/
theorem claim_C4 (s : Trainer) (data : RouteStartData) (env : StartEnv)
    (cfg : KafkaDict) (hcfg : data.kafka_config = some cfg) :
    ((fieldMissing cfg.servers = true ∨ fieldMissing cfg.topic = true) →
      ∃ msg, route_start s data env = .rejected 400 msg)
    ∧ (∀ part, part ∈ serverParts (cfg.servers.getD "") →
        ¬ SpecValidEntry part →
      ∃ msg, route_start s data env = .rejected 400 msg)
    ∧ (cfg.servers = some "badhost" →
      ∃ msg, route_start s data env = .rejected 400 msg) := by
  have hrej : (validate_kafka_config cfg).1 = false →
      ∃ msg, route_start s data env = .rejected 400 msg := by
    intro hv
    refine ⟨(validate_kafka_config cfg).2, ?_⟩
    unfold route_start
    rw [hcfg]
    dsimp only [Option.getD_some]
    rw [hv]
    rfl
  have hpartrej : ∀ part, part ∈ serverParts (cfg.servers.getD "") →
      ¬ SpecValidEntry part →
      ∃ msg, route_start s data env = .rejected 400 msg := by
    intro part hmem hspec
    apply hrej
    have hbad : routeEntryBad part = true := by
      rcases hb : routeEntryBad part with _ | _
      · exact absurd (routeEntryBad_false_spec part hb) hspec
      · rfl
    unfold validate_kafka_config
    split
    · rfl
    · split
      · rfl
      · have hne : ((serverParts (cfg.servers.getD "")).filter
            routeEntryBad) ≠ [] :=
          List.ne_nil_of_mem (List.mem_filter.mpr ⟨hmem, hbad⟩)
        rw [if_neg (fun hemp => hne (List.isEmpty_iff.mp hemp))]
  refine ⟨?_, hpartrej, ?_⟩
  · intro hm
    apply hrej
    unfold validate_kafka_config
    rcases hm with hm | hm
    · rw [hm]
      rfl
    · rw [hm]
      split <;> rfl
  · intro hs
    exact hpartrej "badhost".toList (by rw [hs]; decide)
      (noColon_not_spec _ (by decide))

/-- Witness for C4: the concrete `badhost` request is rejected. -/
theorem claim_C4_witness :
    ∃ msg, route_start initialTrainer
        { kafka_config := some { servers := some "badhost", topic := some "t" } }
        exStartEnv
      = .rejected 400 msg :=
  (claim_C4 initialTrainer
    { kafka_config := some { servers := some "badhost", topic := some "t" } }
    exStartEnv { servers := some "badhost", topic := some "t" } rfl).2.2 rfl

/-! ### Configuration templating: scanner lemmas -/

theorem dropWhile_append_of_all {p : Char → Bool} (u t : List Char)
    (hu : ∀ c ∈ u, p c = true) :
    (u ++ t).dropWhile p = t.dropWhile p := by
  induction u with
  | nil => rfl
  | cons c u ih =>
    rw [List.cons_append, List.dropWhile_cons, if_pos (hu c (by simp))]
    exact ih (fun c hc => hu c (by simp [hc]))

theorem dropWhile_cons_of_neg {p : Char → Bool} (c : Char) (t : List Char)
    (hc : p c = false) : (c :: t).dropWhile p = c :: t := by
  rw [List.dropWhile_cons, if_neg (by simp [hc])]

theorem isPrefixOf_append_self (l r : List Char) :
    l.isPrefixOf (l ++ r) = true :=
  List.isPrefixOf_iff_prefix.mpr (List.prefix_append l r)

theorem LineStartPre_cons (c : Char) (p : List Char) (ls : Bool)
    (h : LineStartPre (c == nl) p) : LineStartPre ls (c :: p) := by
  rcases h with ⟨hnil, hlt⟩ | hlast
  · subst hnil
    right
    have hc : c = nl := eq_of_beq hlt
    simp [hc]
  · right
    cases p with
    | nil => simp at hlast
    | cons d q =>
      rw [List.getLast?_cons_cons]
      exact hlast

theorem LineStartPre_uncons (c : Char) (p : List Char) (ls : Bool)
    (h : LineStartPre ls (c :: p)) : LineStartPre (c == nl) p := by
  rcases h with ⟨hnil, -⟩ | hlast
  · exact absurd hnil (by simp)
  · cases p with
    | nil =>
      left
      refine ⟨rfl, ?_⟩
      simp only [List.getLast?_singleton, Option.some.injEq] at hlast
      simp [hlast]
    | cons d q =>
      right
      rw [List.getLast?_cons_cons] at hlast
      exact hlast

theorem kafkaMatchHere_intro (u1 u2 t : List Char)
    (h1 : ∀ c ∈ u1, isIndent c = true) (h2 : ∀ c ∈ u2, isWs c = true) :
    kafkaMatchHere (u1 ++ (litKTI ++ (u2 ++ lbraceC :: t))) = true := by
  unfold kafkaMatchHere
  dsimp only
  rw [dropWhile_append_of_all u1 _ h1]
  rw [show litKTI ++ (u2 ++ lbraceC :: t)
      = 'k' :: (litKTI.tail ++ (u2 ++ lbraceC :: t)) from rfl]
  rw [dropWhile_cons_of_neg _ _ (by decide)]
  rw [show 'k' :: (litKTI.tail ++ (u2 ++ lbraceC :: t))
      = litKTI ++ (u2 ++ lbraceC :: t) from rfl]
  rw [isPrefixOf_append_self, if_pos rfl, List.drop_left,
    dropWhile_append_of_all u2 _ h2, dropWhile_cons_of_neg _ _ (by decide)]
  simp

theorem kafkaMatchHere_elim (s : List Char) (h : kafkaMatchHere s = true) :
    ∃ u1 u2 t, s = u1 ++ (litKTI ++ (u2 ++ lbraceC :: t))
      ∧ (∀ c ∈ u1, isIndent c = true) ∧ (∀ c ∈ u2, isWs c = true) := by
  unfold kafkaMatchHere at h
  by_cases hp : litKTI.isPrefixOf (s.dropWhile isIndent) = true
  · rw [if_pos hp] at h
    obtain ⟨r, hr⟩ := List.isPrefixOf_iff_prefix.mp hp
    have hdrop : (s.dropWhile isIndent).drop litKTI.length = r := by
      rw [← hr, List.drop_left]
    rw [hdrop] at h
    rcases hd : r.dropWhile isWs with _ | ⟨c, t⟩ <;> rw [hd] at h
    · exact absurd h (by simp)
    · have hc : c = lbraceC := of_decide_eq_true h
      refine ⟨s.takeWhile isIndent, r.takeWhile isWs, t, ?_, ?_, ?_⟩
      · conv_lhs => rw [← List.takeWhile_append_dropWhile isIndent s]
        rw [← hr]
        congr 1
        congr 1
        conv_lhs => rw [← List.takeWhile_append_dropWhile isWs r]
        rw [hd, hc]
      · intro c hc
        exact List.mem_takeWhile_imp hc
      · intro c hc
        exact List.mem_takeWhile_imp hc
  · rw [if_neg hp] at h
    exact absurd h (by simp)

theorem containsKafkaAux_intro (p s : List Char) (ls : Bool)
    (hls : LineStartPre ls p) (hm : kafkaMatchHere s = true) :
    containsKafkaAux (p ++ s) ls = true := by
  induction p generalizing ls with
  | nil =>
    have hlt : ls = true := by
      rcases hls with ⟨-, h⟩ | h
      · exact h
      · simp at h
    subst hlt
    cases s with
    | nil => exact absurd hm (by decide)
    | cons c t =>
      show ((true && kafkaMatchHere (c :: t))
        || containsKafkaAux t (c == nl)) = true
      rw [hm]
      rfl
  | cons c p ih =>
    show ((ls && kafkaMatchHere (c :: (p ++ s)))
        || containsKafkaAux (p ++ s) (c == nl)) = true
    rw [ih (c == nl) (LineStartPre_uncons c p ls hls)]
    simp

theorem containsKafkaAux_elim (d : List Char) (ls : Bool)
    (h : containsKafkaAux d ls = true) :
    ∃ p s, d = p ++ s ∧ LineStartPre ls p ∧ kafkaMatchHere s = true := by
  induction d generalizing ls with
  | nil => simp [containsKafkaAux] at h
  | cons c rest ih =>
    rw [show containsKafkaAux (c :: rest) ls
        = ((ls && kafkaMatchHere (c :: rest))
            || containsKafkaAux rest (c == nl)) from rfl,
      Bool.or_eq_true] at h
    rcases h with h | h
    · rw [Bool.and_eq_true] at h
      exact ⟨[], c :: rest, rfl, Or.inl ⟨rfl, h.1⟩, h.2⟩
    · obtain ⟨p, s, hds, hls, hm⟩ := ih (c == nl) h
      exact ⟨c :: p, s, by rw [List.cons_append, hds],
        LineStartPre_cons c p ls hls, hm⟩

theorem tcMatchHere_elim (s m b : List Char)
    (h : tcMatchHere s = some (m, b)) :
    s = m ++ b ∧ ∃ w1 w2, m = w1 ++ (litTC ++ (w2 ++ [lbraceC]))
      ∧ (∀ c ∈ w1, isWs c = true) ∧ (∀ c ∈ w2, isWs c = true) := by
  unfold tcMatchHere at h
  dsimp only at h
  by_cases hp : litTC.isPrefixOf (s.dropWhile isWs) = true
  · rw [if_pos hp] at h
    obtain ⟨r, hr⟩ := List.isPrefixOf_iff_prefix.mp hp
    have hdrop : (s.dropWhile isWs).drop litTC.length = r := by
      rw [← hr, List.drop_left]
    rw [hdrop] at h
    rcases hd : r.dropWhile isWs with _ | ⟨c, bb⟩ <;> rw [hd] at h <;>
      dsimp only at h
    · exact absurd h (by simp)
    · by_cases hc : c = lbraceC
      · rw [if_pos hc] at h
        obtain ⟨hm, hb⟩ := Prod.mk.injEq _ _ _ _ |>.mp (Option.some.inj h)
        refine ⟨?_, s.takeWhile isWs, r.takeWhile isWs, ?_, ?_, ?_⟩
        · rw [← hm, ← hb]
          conv_lhs => rw [← List.takeWhile_append_dropWhile isWs s]
          rw [← hr]
          conv_lhs => rw [show r = r.takeWhile isWs ++ r.dropWhile isWs from
            (List.takeWhile_append_dropWhile isWs r).symm]
          rw [hd, hc]
          simp [List.append_assoc]
        · rw [← hm]
          simp [List.append_assoc]
        · intro c hc
          exact List.mem_takeWhile_imp hc
        · intro c hc
          exact List.mem_takeWhile_imp hc
      · rw [if_neg hc] at h
        exact absurd h (by simp)
  · rw [if_neg hp] at h
    exact absurd h (by simp)

theorem tcScan_elim (d : List Char) (ls : Bool) (a m b : List Char)
    (h : tcScan d ls = some (a, m, b)) :
    d = a ++ (m ++ b) ∧ LineStartPre ls a
      ∧ ∃ w1 w2, m = w1 ++ (litTC ++ (w2 ++ [lbraceC]))
        ∧ (∀ c ∈ w1, isWs c = true) ∧ (∀ c ∈ w2, isWs c = true) := by
  induction d generalizing ls a with
  | nil => simp [tcScan] at h
  | cons c rest ih =>
    rw [show tcScan (c :: rest) ls
        = (match (if ls then tcMatchHere (c :: rest) else none) with
          | some (m, b) => some ([], m, b)
          | none =>
            match tcScan rest (c == nl) with
            | some (a, m, b) => some (c :: a, m, b)
            | none => none) from rfl] at h
    rcases hls : ls with _ | _
    · rw [hls, if_neg (by simp)] at h
      dsimp only at h
      rcases hrec : tcScan rest (c == nl) with _ | ⟨a', m', b'⟩ <;>
        rw [hrec] at h <;> try dsimp only at h
      · exact absurd h (by simp)
      · obtain ⟨ha, hm, hb⟩ : a = c :: a' ∧ m = m' ∧ b = b' := by
          have h1 := Option.some.inj h
          exact ⟨(Prod.mk.injEq _ _ _ _ |>.mp h1).1.symm,
            (Prod.mk.injEq _ _ _ _ |>.mp
              (Prod.mk.injEq _ _ _ _ |>.mp h1).2).1.symm,
            (Prod.mk.injEq _ _ _ _ |>.mp
              (Prod.mk.injEq _ _ _ _ |>.mp h1).2).2.symm⟩
        subst ha hm hb
        obtain ⟨hd1, hls', hshape⟩ := ih (c == nl) a' hrec
        exact ⟨by rw [List.cons_append, hd1],
          LineStartPre_cons c a' false hls', hshape⟩
    · rw [hls, if_pos rfl] at h
      rcases hmh : tcMatchHere (c :: rest) with _ | ⟨mm, bb⟩ <;>
        rw [hmh] at h <;> try dsimp only at h
      · rcases hrec : tcScan rest (c == nl) with _ | ⟨a', m', b'⟩ <;>
          rw [hrec] at h <;> try dsimp only at h
        · exact absurd h (by simp)
        · obtain ⟨ha, hm, hb⟩ : a = c :: a' ∧ m = m' ∧ b = b' := by
            have h1 := Option.some.inj h
            exact ⟨(Prod.mk.injEq _ _ _ _ |>.mp h1).1.symm,
              (Prod.mk.injEq _ _ _ _ |>.mp
                (Prod.mk.injEq _ _ _ _ |>.mp h1).2).1.symm,
              (Prod.mk.injEq _ _ _ _ |>.mp
                (Prod.mk.injEq _ _ _ _ |>.mp h1).2).2.symm⟩
          subst ha hm hb
          obtain ⟨hd1, hls', hshape⟩ := ih (c == nl) a' hrec
          exact ⟨by rw [List.cons_append, hd1],
            LineStartPre_cons c a' true hls', hshape⟩
      · obtain ⟨ha, hm, hb⟩ : a = [] ∧ m = mm ∧ b = bb := by
          have h1 := Option.some.inj h
          exact ⟨(Prod.mk.injEq _ _ _ _ |>.mp h1).1.symm,
            (Prod.mk.injEq _ _ _ _ |>.mp
              (Prod.mk.injEq _ _ _ _ |>.mp h1).2).1.symm,
            (Prod.mk.injEq _ _ _ _ |>.mp
              (Prod.mk.injEq _ _ _ _ |>.mp h1).2).2.symm⟩
        subst ha hm hb
        obtain ⟨hsd, hshape⟩ := tcMatchHere_elim (c :: rest) m b hmh
        exact ⟨by rw [List.nil_append, hsd], Or.inl ⟨rfl, rfl⟩, hshape⟩

theorem containsSub_intro (pat x y : List Char) :
    containsSub pat (x ++ (pat ++ y)) = true := by
  induction x with
  | nil =>
    rw [List.nil_append]
    cases hpy : pat ++ y with
    | nil =>
      have : pat = [] := by
        cases pat
        · rfl
        · simp at hpy
      rw [this]
      rfl
    | cons c t =>
      show (pat.isPrefixOf (c :: t) || containsSub pat t) = true
      rw [← hpy, isPrefixOf_append_self]
      rfl
  | cons c x ih =>
    show (pat.isPrefixOf _ || containsSub pat (x ++ (pat ++ y))) = true
    rw [ih]
    simp

theorem containsSub_iff_exists (pat d : List Char) :
    containsSub pat d = true ↔ ∃ x y, d = x ++ (pat ++ y) := by
  constructor
  · intro h
    induction d with
    | nil =>
      cases hp : pat with
      | nil => exact ⟨[], [], rfl⟩
      | cons c t =>
        rw [hp] at h
        simp [containsSub] at h
    | cons c rest ih =>
      rw [show containsSub pat (c :: rest)
          = (pat.isPrefixOf (c :: rest) || containsSub pat rest) from rfl,
        Bool.or_eq_true] at h
      rcases h with h | h
      · obtain ⟨r, hr⟩ := List.isPrefixOf_iff_prefix.mp h
        exact ⟨[], r, by rw [List.nil_append, hr]⟩
      · obtain ⟨x, y, hxy⟩ := ih h
        exact ⟨c :: x, y, by rw [List.cons_append, hxy]⟩
  · rintro ⟨x, y, rfl⟩
    exact containsSub_intro pat x y

/-! ### Escaping properties -/

theorem escQ_cons (c : Char) (v : List Char) :
    escQ (c :: v) = (if c = quoteC then [bslashC, quoteC]
      else [if c = nl then ' ' else c]) ++ escQ v := by
  unfold escQ
  rw [List.flatMap_cons, List.map_append]
  congr 1
  by_cases hc : c = quoteC
  · rw [if_pos hc, if_pos hc]
    decide
  · rw [if_neg hc, if_neg hc]
    rfl

theorem escQ_head_ne_quote (v : List Char) :
    ∀ c r, escQ v = c :: r → c ≠ quoteC := by
  cases v with
  | nil =>
    intro c r h
    simp [escQ] at h
  | cons d v =>
    intro c r h
    rw [escQ_cons] at h
    by_cases hd : d = quoteC
    · rw [if_pos hd, List.cons_append] at h
      injection h with h1 _
      rw [← h1]
      decide
    · rw [if_neg hd, List.cons_append] at h
      injection h with h1 _
      rw [← h1]
      by_cases hn : d = nl
      · rw [if_pos hn]
        decide
      · rw [if_neg hn]
        exact hd

theorem quotesEscaped_escQ (v : List Char) : quotesEscaped (escQ v) = true := by
  induction v with
  | nil => rfl
  | cons c v ih =>
    rw [escQ_cons]
    by_cases hc : c = quoteC
    · rw [if_pos hc]
      show quotesEscaped (bslashC :: quoteC :: escQ v) = true
      rw [show quotesEscaped (bslashC :: quoteC :: escQ v)
          = quotesEscaped (escQ v) from by
        unfold quotesEscaped
        rw [if_neg (by decide), if_pos (by decide), quotesEscaped.eq_def]]
      exact ih
    · rw [if_neg hc, List.cons_append, List.nil_append]
      rcases he : escQ v with _ | ⟨c2, r2⟩
      · show quotesEscaped [if c = nl then ' ' else c] = true
        by_cases hn : c = nl
        · rw [if_pos hn]
          decide
        · rw [if_neg hn]
          show decide (¬ c = quoteC) = true
          exact decide_eq_true hc
      · show quotesEscaped ((if c = nl then ' ' else c) :: c2 :: r2) = true
        have hc2 : c2 ≠ quoteC := escQ_head_ne_quote v c2 r2 he
        have hh : (if c = nl then ' ' else c) ≠ quoteC := by
          by_cases hn : c = nl
          · rw [if_pos hn]
            decide
          · rw [if_neg hn]
            exact hc
        rw [show quotesEscaped ((if c = nl then ' ' else c) :: c2 :: r2)
            = quotesEscaped (c2 :: r2) from by
          unfold quotesEscaped
          rw [if_neg hh, if_neg (by
            intro hand
            exact hc2 (of_decide_eq_true (Bool.and_eq_true _ _ |>.mp hand).2)),
            quotesEscaped.eq_def]]
        rw [← he]
        exact ih

theorem escQ_no_newline (v : List Char) : ∀ c ∈ escQ v, c ≠ nl := by
  induction v with
  | nil =>
    intro c hc
    simp [escQ] at hc
  | cons d v ih =>
    intro c hc
    rw [escQ_cons] at hc
    rcases List.mem_append.mp hc with h | h
    · by_cases hd : d = quoteC
      · rw [if_pos hd] at h
        rcases h with _ | ⟨_, h⟩
        · decide
        · rcases h with _ | ⟨_, h⟩
          · decide
          · cases h
      · rw [if_neg hd] at h
        rcases h with _ | ⟨_, h⟩
        · by_cases hn : d = nl
          · rw [if_pos hn]
            decide
          · rw [if_neg hn]
            exact hn
        · cases h
    · exact ih c h

/-! ### Preservation of the kafka-block match -/

theorem getLast?_append_of_ne_nil (x z : List Char) (hz : z ≠ []) :
    (x ++ z).getLast? = z.getLast? := by
  rw [List.getLast?_append]
  rcases hzl : z.getLast? with _ | c
  · exact absurd (List.getLast?_eq_none_iff.mp hzl) hz
  · rfl

theorem containsKafka_append (d t : List Char) (h : containsKafka d = true) :
    containsKafka (d ++ t) = true := by
  obtain ⟨p, s, hds, hls, hm⟩ := containsKafkaAux_elim d true h
  obtain ⟨u1, u2, t0, hsd, h1, h2⟩ := kafkaMatchHere_elim s hm
  rw [hds, List.append_assoc]
  apply containsKafkaAux_intro p _ true hls
  rw [hsd, show (u1 ++ (litKTI ++ (u2 ++ lbraceC :: t0))) ++ t
      = u1 ++ (litKTI ++ (u2 ++ lbraceC :: (t0 ++ t))) from by
    simp [List.append_assoc]]
  exact kafkaMatchHere_intro u1 u2 _ h1 h2

theorem containsKafka_of_matchHere (d : List Char)
    (h : kafkaMatchHere d = true) : containsKafka d = true := by
  cases d with
  | nil => exact absurd h (by decide)
  | cons c rest =>
    show ((true && kafkaMatchHere (c :: rest))
      || containsKafkaAux rest (c == nl)) = true
    rw [h]
    rfl

theorem kafkaMatchHere_simple (t : List Char) :
    kafkaMatchHere (litKTI ++ ' ' :: lbraceC :: t) = true := by
  have h := kafkaMatchHere_intro [] [' '] t
    (fun c hc => by simp at hc)
    (fun c hc => by
      simp at hc
      rw [hc]
      decide)
  rw [List.nil_append] at h
  exact h

theorem containsKafka_kafkaSection (k : KafkaVals) (x : List Char) :
    containsKafka (kafkaSection k ++ x) = true := by
  apply containsKafka_of_matchHere
  have hlead : "kafka_train_input \x7b\n  server: ".toList
      = litKTI ++ (' ' :: lbraceC :: nl :: "  server: ".toList) := by decide
  have hre : kafkaSection k ++ x
      = litKTI ++ ' ' :: lbraceC :: nl :: ("  server: ".toList
          ++ [quoteC] ++ escQ k.server ++ [quoteC] ++ "\n  topic: ".toList
          ++ [quoteC] ++ escQ k.topic ++ [quoteC] ++ "\n  group: ".toList
          ++ [quoteC] ++ escQ k.group ++ [quoteC]
          ++ "\n  offset_time: ".toList ++ [quoteC] ++ escQ k.offset_time
          ++ [quoteC] ++ "\n\x7d\n\n".toList ++ x) := by
    rw [kafkaSection, hlead]
    simp [List.append_assoc]
  rw [hre]
  exact kafkaMatchHere_simple _

theorem containsKafka_insert (d a m b ins : List Char)
    (hins : ins.getLast? = some nl)
    (hscan : tcScan d true = some (a, m, b))
    (hck : containsKafka d = true) :
    containsKafka (a ++ (m ++ (ins ++ b))) = true := by
  obtain ⟨hd1, hlsa, w1, w2, hmw, hw1, hw2⟩ := tcScan_elim d true a m b hscan
  obtain ⟨p, s, hd2, hlsp, hkm⟩ := containsKafkaAux_elim d true hck
  obtain ⟨u1, u2, t0, hsd, hu1, hu2⟩ := kafkaMatchHere_elim s hkm
  have hmne : m ≠ [] := by
    intro hnil
    rw [hnil] at hmw
    have hl := congrArg List.length hmw
    simp [List.length_append, litTC] at hl
    omega
  have hmlast : m.getLast? = some lbraceC := by
    rw [hmw, show w1 ++ (litTC ++ (w2 ++ [lbraceC]))
        = (w1 ++ (litTC ++ w2)) ++ [lbraceC] from by simp [List.append_assoc],
      List.getLast?_concat]
  have hskm : s = (u1 ++ (litKTI ++ (u2 ++ [lbraceC]))) ++ t0 := by
    rw [hsd]
    simp [List.append_assoc]
  set km := u1 ++ (litKTI ++ (u2 ++ [lbraceC])) with hkmdef
  have hkmmatch : ∀ x, kafkaMatchHere (km ++ x) = true := by
    intro x
    rw [hkmdef, show (u1 ++ (litKTI ++ (u2 ++ [lbraceC]))) ++ x
        = u1 ++ (litKTI ++ (u2 ++ lbraceC :: x)) from by
      simp [List.append_assoc]]
    exact kafkaMatchHere_intro u1 u2 x hu1 hu2
  have hdp : d = (p ++ km) ++ t0 := by
    rw [hd2, hskm]
    simp [List.append_assoc]
  have hdam : d = (a ++ m) ++ b := by
    rw [hd1, List.append_assoc]
  have hpkm_pref : (p ++ km) <+: d := ⟨t0, hdp.symm⟩
  have ham_pref : (a ++ m) <+: d := ⟨b, hdam.symm⟩
  have hp_pref : p <+: d := by
    rw [hd2]
    exact List.prefix_append p s
  rcases le_or_lt (p ++ km).length (a ++ m).length with hlen | hlen
  · have hpref : (p ++ km) <+: (a ++ m) := by
      rcases List.prefix_or_prefix_of_prefix hpkm_pref ham_pref with h | h
      · exact h
      · rw [h.eq_of_length (Nat.le_antisymm h.length_le hlen)]
    obtain ⟨z, hz⟩ := hpref
    have hre : a ++ (m ++ (ins ++ b)) = p ++ (km ++ (z ++ (ins ++ b))) := by
      have hstep : (a ++ m) ++ (ins ++ b) = ((p ++ km) ++ z) ++ (ins ++ b) := by
        rw [hz]
      simpa [List.append_assoc] using hstep
    rw [hre]
    exact containsKafkaAux_intro p _ true hlsp (hkmmatch _)
  · rcases le_or_lt (a ++ m).length p.length with hlen2 | hlen2
    · have hpref : (a ++ m) <+: p := by
        rcases List.prefix_or_prefix_of_prefix ham_pref hp_pref with h | h
        · exact h
        · rw [h.eq_of_length (Nat.le_antisymm h.length_le hlen2)]
      obtain ⟨z, hz⟩ := hpref
      have hb : b = z ++ (km ++ t0) := by
        have hcan : (a ++ m) ++ b = (a ++ m) ++ (z ++ (km ++ t0)) := by
          rw [← hdam, hdp, ← hz]
          simp [List.append_assoc]
        exact List.append_cancel_left hcan
      have hre : a ++ (m ++ (ins ++ b))
          = ((a ++ m) ++ (ins ++ z)) ++ (km ++ t0) := by
        rw [hb]
        simp [List.append_assoc]
      rw [hre]
      have hinsne : ins ≠ [] := by
        intro hi
        rw [hi] at hins
        simp at hins
      refine containsKafkaAux_intro _ _ true ?_ (hkmmatch _)
      rcases hcz : z with _ | ⟨zc, zt⟩
      · right
        rw [List.append_nil,
          getLast?_append_of_ne_nil _ ins hinsne]
        exact hins
      · right
        have hzne : (zc :: zt) ≠ [] := by simp
        rw [show (a ++ m) ++ (ins ++ (zc :: zt))
            = ((a ++ m) ++ ins) ++ (zc :: zt) from by
          simp [List.append_assoc],
          getLast?_append_of_ne_nil _ _ hzne]
        have hpne : p ≠ [] := by
          rw [← hz, hcz]
          simp
        have hplast : p.getLast? = some nl := by
          rcases hlsp with ⟨hnil, -⟩ | hl
          · exact absurd hnil hpne
          · exact hl
        rw [← hz, hcz, getLast?_append_of_ne_nil _ _ hzne] at hplast
        exact hplast
    · exfalso
      have hppref : p <+: (a ++ m) := by
        rcases List.prefix_or_prefix_of_prefix hp_pref ham_pref with h | h
        · exact h
        · exact absurd h.length_le (by omega)
      obtain ⟨k1, hk1⟩ := hppref
      have hk1ne : k1 ≠ [] := by
        intro hnil
        rw [hnil, List.append_nil] at hk1
        rw [hk1] at hlen2
        omega
      have hampref2 : (a ++ m) <+: (p ++ km) := by
        rcases List.prefix_or_prefix_of_prefix ham_pref hpkm_pref with h | h
        · exact h
        · exact absurd h.length_le (by omega)
      have hk1pref : k1 <+: km := by
        rw [← hk1] at hampref2
        exact (List.prefix_append_right_inj p).mp hampref2
      have hl1 : p.length + k1.length = a.length + m.length := by
        have h0 := congrArg List.length hk1
        rw [List.length_append, List.length_append] at h0
        exact h0
      have hlen' : a.length + m.length < p.length + km.length := by
        rw [List.length_append, List.length_append] at hlen
        exact hlen
      have hk1len : k1.length < km.length := by omega
      have hk1last : k1.getLast? = some lbraceC := by
        have h1 : (a ++ m).getLast? = some lbraceC := by
          rw [getLast?_append_of_ne_nil a m hmne]
          exact hmlast
        rw [← hk1, getLast?_append_of_ne_nil p k1 hk1ne] at h1
        exact h1
      have hmem : lbraceC ∈ k1 :=
        List.mem_of_mem_getLast? (by rw [hk1last]; rfl)
      have hkmsplit : km = (u1 ++ (litKTI ++ u2)) ++ [lbraceC] := by
        rw [hkmdef]
        simp [List.append_assoc]
      have hk1core : k1 <+: (u1 ++ (litKTI ++ u2)) := by
        have hlcore : km.length = (u1 ++ (litKTI ++ u2)).length + 1 := by
          rw [hkmsplit, List.length_append]
          rfl
        have hlen3 : k1.length ≤ (u1 ++ (litKTI ++ u2)).length := by omega
        have htake := List.prefix_iff_eq_take.mp hk1pref
        rw [hkmsplit, List.take_append_of_le_length hlen3] at htake
        rw [htake]
        exact List.take_prefix _ _
      have hmem2 := hk1core.subset hmem
      rcases List.mem_append.mp hmem2 with h | h
      · exact absurd (hu1 _ h) (by decide)
      · rcases List.mem_append.mp h with h | h
        · exact absurd h (by decide)
        · exact absurd (hu2 _ h) (by decide)

/-! ### Idempotence of configuration generation -/

theorem incrSection_last (u : IncrVals) :
    ∃ y, incrSection u = y ++ [nl] := by
  refine ⟨"  incr_save_config \x7b\n    dense_save_steps: ".toList
    ++ (Nat.repr u.dense_save_steps).toList
    ++ "\n    sparse_save_steps: ".toList
    ++ (Nat.repr u.sparse_save_steps).toList
    ++ "\n    fs \x7b\x7d\n  \x7d\n  enable_oss_stop_signal: ".toList
    ++ (if u.enable_oss_stop_signal then "true".toList else "false".toList),
    ?_⟩
  rw [incrSection, show "\n".toList = [nl] from by decide]

theorem ins_getLast (u : IncrVals) :
    (nl :: incrSection u).getLast? = some nl := by
  obtain ⟨y, hy⟩ := incrSection_last u
  rw [hy, show nl :: (y ++ [nl]) = (nl :: y) ++ [nl] from by simp,
    List.getLast?_concat]

theorem incrSection_decomp (u : IncrVals) :
    ∃ y, incrSection u = "  ".toList ++ (litIncr ++ y) := by
  refine ⟨" \x7b\n    dense_save_steps: ".toList
    ++ (Nat.repr u.dense_save_steps).toList
    ++ "\n    sparse_save_steps: ".toList
    ++ (Nat.repr u.sparse_save_steps).toList
    ++ "\n    fs \x7b\x7d\n  \x7d\n  enable_oss_stop_signal: ".toList
    ++ (if u.enable_oss_stop_signal then "true".toList else "false".toList)
    ++ "\n".toList, ?_⟩
  rw [incrSection,
    show "  incr_save_config \x7b\n    dense_save_steps: ".toList
      = "  ".toList ++ (litIncr ++ " \x7b\n    dense_save_steps: ".toList)
      from by decide]
  simp [List.append_assoc]

theorem hasIncr_incrStep (u : IncrVals) (d1 : List Char) :
    hasIncr (incrStep u d1) = true := by
  unfold incrStep
  split
  · rename_i h
    exact h
  · obtain ⟨y, hy⟩ := incrSection_decomp u
    rcases hscan : tcScan d1 true with _ | ⟨a, mm, b⟩ <;> dsimp only
    · unfold hasIncr
      rw [containsSub_iff_exists]
      refine ⟨d1 ++ "\ntrain_config \x7b\n".toList ++ "  ".toList,
        y ++ "\x7d\n".toList, ?_⟩
      rw [appendTrainBlock, hy]
      simp [List.append_assoc]
    · unfold hasIncr
      rw [containsSub_iff_exists]
      refine ⟨(a ++ mm) ++ nl :: "  ".toList, y ++ b, ?_⟩
      rw [hy]
      simp [List.append_assoc]

theorem containsKafka_incrStep (u : IncrVals) (d1 : List Char)
    (h : containsKafka d1 = true) : containsKafka (incrStep u d1) = true := by
  unfold incrStep
  split
  · exact h
  · rcases hscan : tcScan d1 true with _ | ⟨a, mm, b⟩ <;> dsimp only
    · exact containsKafka_append d1 _ h
    · have hmain := containsKafka_insert d1 a mm b (nl :: incrSection u)
        (ins_getLast u) hscan h
      rw [show a ++ mm ++ (nl :: incrSection u) ++ b
          = a ++ (mm ++ ((nl :: incrSection u) ++ b)) from by
        simp [List.append_assoc]]
      exact hmain

theorem containsKafka_modify (mo : Mods) (d : List Char) :
    containsKafka (modify_config mo d) = true := by
  unfold modify_config
  by_cases hk : containsKafka d = true
  · rw [if_pos hk]
    exact containsKafka_incrStep _ _ hk
  · rw [if_neg hk]
    exact containsKafka_incrStep _ _ (containsKafka_kafkaSection _ _)

theorem hasIncr_modify (mo : Mods) (d : List Char) :
    hasIncr (modify_config mo d) = true := by
  unfold modify_config
  exact hasIncr_incrStep _ _

/-- C2: re-applying the configuration transformation to an
already-transformed document (with any template values in either run)
returns it unchanged, so the number of occurrences of the
streaming-input pattern and of the `incr_save_config` marker after two
applications equal those after one: neither block is ever duplicated. -/
theorem claim_C2 (m1 m2 : Mods) (d : List Char) :
    modify_config m2 (modify_config m1 d) = modify_config m1 d
      ∧ countKafka (modify_config m2 (modify_config m1 d))
          = countKafka (modify_config m1 d)
      ∧ countSub litIncr (modify_config m2 (modify_config m1 d))
          = countSub litIncr (modify_config m1 d) := by
  have hid : modify_config m2 (modify_config m1 d) = modify_config m1 d := by
    have hk := containsKafka_modify m1 d
    have hi := hasIncr_modify m1 d
    conv_lhs => rw [modify_config]
    rw [if_pos hk]
    unfold incrStep
    rw [if_pos hi]
  exact ⟨hid, by rw [hid], by rw [hid]⟩

/-- C9: every value templated into the streaming-input block is escaped
(no newline survives, every single quote is preceded by a backslash);
the kafka section is prepended exactly when the document does not
already match the streaming-input pattern, and the prepended section
itself makes the pattern match at the top of the document. -/
theorem claim_C9 (mo : Mods) (d : List Char) :
    ((∀ c ∈ escQ mo.kafka.server, c ≠ nl)
      ∧ quotesEscaped (escQ mo.kafka.server) = true)
    ∧ ((∀ c ∈ escQ mo.kafka.topic, c ≠ nl)
      ∧ quotesEscaped (escQ mo.kafka.topic) = true)
    ∧ ((∀ c ∈ escQ mo.kafka.group, c ≠ nl)
      ∧ quotesEscaped (escQ mo.kafka.group) = true)
    ∧ ((∀ c ∈ escQ mo.kafka.offset_time, c ≠ nl)
      ∧ quotesEscaped (escQ mo.kafka.offset_time) = true)
    ∧ modify_config mo d
        = incrStep mo.incr
            (if containsKafka d then d else kafkaSection mo.kafka ++ d)
    ∧ containsKafka (kafkaSection mo.kafka ++ d) = true :=
  ⟨⟨escQ_no_newline _, quotesEscaped_escQ _⟩,
    ⟨escQ_no_newline _, quotesEscaped_escQ _⟩,
    ⟨escQ_no_newline _, quotesEscaped_escQ _⟩,
    ⟨escQ_no_newline _, quotesEscaped_escQ _⟩,
    rfl, containsKafka_kafkaSection _ _⟩

end EasyRec
